import Mathlib

/-!
Shallow embedding of the PostedIn scheduler core (Go) and proofs about it.

Instants (`time.Time`) are modelled as integers; the Go code compares absolute
instants (`Before` / `After`), which timezone conversion does not change, so a
single `now : Int` parameter stands for the resolved configured-timezone time.
Persistence is modelled by carrying the on-disk collection (`disk`) alongside
the in-memory one; whether a given `SavePosts` call succeeds is an explicit
`saveOk : Bool` parameter.  Fallible Go functions return `Option GoErr`, where
`none` models a `nil` error.
-/

namespace PostedIn

/-- The `models.Post` record (src/internal/models/post.go). -/
structure Post where
  id : Int
  content : String
  scheduledAt : Int
  status : String
  createdAt : Int
  cronEntryID : Int
  deriving Repr, DecidableEq

/-- The `scheduler.Scheduler` state (src/internal/scheduler/scheduler.go) together
with the JSON file it persists to (`disk`). -/
structure Scheduler where
  posts : List Post
  nextID : Int
  disk : List Post
  deriving Repr, DecidableEq

/-- Error outcomes of the Go functions, one constructor per distinct `fmt.Errorf`
site relevant to the claims. -/
inductive GoErr where
  | notFound
  | notScheduled
  | tokenErr
  | publishFailed
  | saveFailed
  | someNotFound
  | noIDs
  | noneDeleted
  | alreadyRunning
  deriving Repr, DecidableEq

/-- `savePosts` (scheduler.go:51): writes the whole in-memory collection to disk;
`saveOk` says whether the underlying `os.WriteFile` succeeds. -/
def savePosts (saveOk : Bool) (s : Scheduler) : Scheduler × Bool :=
  (if saveOk then { s with disk := s.posts } else s, saveOk)

/-- Membership test on an id list (models Go `map[int]struct` / `map[int]bool`
lookups built from an id slice). -/
def idInList (id : Int) : List Int → Bool
  | [] => false
  | x :: xs => if x = id then true else idInList id xs

/-- First post carrying the given id, the way every `for ... range s.Posts` lookup
loop in scheduler.go finds it. -/
def findFirst (id : Int) : List Post → Option Post
  | [] => none
  | p :: rest => if p.id = id then some p else findFirst id rest

/-- Removal of the first post carrying the given id (`DeletePost`'s slice splice);
`none` when no post matches. -/
def removeFirst (id : Int) : List Post → Option (List Post)
  | [] => none
  | p :: rest => if p.id = id then some rest else (removeFirst id rest).map (p :: ·)

/-- Set the status of the first post carrying the given id (the in-place update in
`MarkAsPosted` / `PublishToLinkedIn`). -/
def setStatusFirst (id : Int) (st : String) : List Post → List Post
  | [] => []
  | p :: rest => if p.id = id then { p with status := st } :: rest else p :: setStatusFirst id st rest

/-- Set the cron entry id of the first post carrying the given id
(`UpdatePostCronEntry`'s in-place update). -/
def setCronFirst (id : Int) (entry : Int) : List Post → List Post
  | [] => []
  | p :: rest => if p.id = id then { p with cronEntryID := entry } :: rest else p :: setCronFirst id entry rest

/-- `AddPost` (scheduler.go:61-93): appends a new post with id `nextID`, increments
`nextID`, saves, and returns the save error if any.  It performs no validation. -/
def AddPost (content : String) (scheduledAt now : Int) (saveOk : Bool) (s : Scheduler) :
    Scheduler × Option GoErr :=
  let post : Post :=
    { id := s.nextID, content := content, scheduledAt := scheduledAt,
      status := "scheduled", createdAt := now, cronEntryID := 0 }
  let s1 := { s with posts := s.posts ++ [post], nextID := s.nextID + 1 }
  ((savePosts saveOk s1).1, if (savePosts saveOk s1).2 then none else some GoErr.saveFailed)

/-- `DeletePost` (scheduler.go:101-120): removes the first matching post and saves;
"post not found" if no post matches. -/
def DeletePost (id : Int) (saveOk : Bool) (s : Scheduler) : Scheduler × Option GoErr :=
  match removeFirst id s.posts with
  | none => (s, some GoErr.notFound)
  | some ps =>
    ((savePosts saveOk { s with posts := ps }).1,
      if (savePosts saveOk { s with posts := ps }).2 then none else some GoErr.saveFailed)

/-- `MarkAsPosted` (scheduler.go:123-132): sets the first matching post's status to
"posted" and saves; "post not found" if no post matches. -/
def MarkAsPosted (id : Int) (saveOk : Bool) (s : Scheduler) : Scheduler × Option GoErr :=
  match findFirst id s.posts with
  | none => (s, some GoErr.notFound)
  | some _ =>
    ((savePosts saveOk { s with posts := setStatusFirst id "posted" s.posts }).1,
      if (savePosts saveOk { s with posts := setStatusFirst id "posted" s.posts }).2 then none
      else some GoErr.saveFailed)

/-- `UpdatePostCronEntry` (scheduler.go:135-144): sets the first matching post's
cron entry id and saves. -/
def UpdatePostCronEntry (id entry : Int) (saveOk : Bool) (s : Scheduler) :
    Scheduler × Option GoErr :=
  match findFirst id s.posts with
  | none => (s, some GoErr.notFound)
  | some _ =>
    ((savePosts saveOk { s with posts := setCronFirst id entry s.posts }).1,
      if (savePosts saveOk { s with posts := setCronFirst id entry s.posts }).2 then none
      else some GoErr.saveFailed)

/-- `GetDuePosts` (scheduler.go:147-163): scheduled posts whose time is not after
`now` (`!post.ScheduledAt.After(now)`, i.e. `scheduledAt ≤ now`). -/
def GetDuePosts (now : Int) (s : Scheduler) : List Post :=
  s.posts.filter (fun p => decide (p.status = "scheduled" ∧ p.scheduledAt ≤ now))

/-- Environment of one `PublishToLinkedIn` call: whether the token loads and
authenticates, and whether the LinkedIn `CreatePost` call (the Publisher Adapter)
succeeds; `saveOk` is the outcome of the status-update save that follows. -/
inductive PublishEnv where
  | preFail
  | adapterFail (saveOk : Bool)
  | adapterOk (saveOk : Bool)
  deriving Repr, DecidableEq

/-- `PublishToLinkedIn` (scheduler.go:166-232).  The returned `Bool` records whether
`client.CreatePost` — the Publisher Adapter — was invoked.  The adapter runs only
when the post exists, its status is "scheduled", and the token checks pass; on
adapter failure the post is marked "failed" (save errors merely logged), on
success it is marked "posted" (save errors returned). -/
def PublishToLinkedIn (postID : Int) (env : PublishEnv) (s : Scheduler) :
    Scheduler × Bool × Option GoErr :=
  match findFirst postID s.posts with
  | none => (s, false, some GoErr.notFound)
  | some p =>
    if p.status = "scheduled" then
      match env with
      | PublishEnv.preFail => (s, false, some GoErr.tokenErr)
      | PublishEnv.adapterFail saveOk =>
        ((savePosts saveOk { s with posts := setStatusFirst postID "failed" s.posts }).1,
          true, some GoErr.publishFailed)
      | PublishEnv.adapterOk saveOk =>
        ((savePosts saveOk { s with posts := setStatusFirst postID "posted" s.posts }).1,
          true,
          if (savePosts saveOk { s with posts := setStatusFirst postID "posted" s.posts }).2
          then none else some GoErr.saveFailed)
    else (s, false, some GoErr.notScheduled)

/-- Deduplication of an id list keeping first occurrences: the key set of the Go
map built in both `DeleteMultiplePosts` variants.  (Go map iteration order is
unspecified; only membership and emptiness of the results are relied on.) -/
def dedupIDsAux (seen : List Int) : List Int → List Int
  | [] => []
  | x :: xs => if idInList x seen then dedupIDsAux seen xs else x :: dedupIDsAux (x :: seen) xs

/-- Key set of `idSet` in scheduler.go:236-239. -/
def dedupIDs (ids : List Int) : List Int := dedupIDsAux [] ids

/-- First `DeleteMultiplePosts` variant (scheduler.go:235-281): filters out all posts
whose id is in the list, saves, then returns an error naming the requested ids that
matched no post (if any). -/
def DeleteMultiplePosts1 (ids : List Int) (saveOk : Bool) (s : Scheduler) :
    Scheduler × Option GoErr :=
  let newPosts := s.posts.filter (fun p => !(idInList p.id ids))
  let notFound := (dedupIDs ids).filter (fun id => !(s.posts.any (fun p => p.id == id)))
  let s2 := (savePosts saveOk { s with posts := newPosts }).1
  if (savePosts saveOk { s with posts := newPosts }).2 then
    if notFound.isEmpty then (s2, none) else (s2, some GoErr.someNotFound)
  else (s2, some GoErr.saveFailed)

/-- The deleted-count / not-found report the second `DeleteMultiplePosts` variant
prints to the console. -/
structure DeleteManyReport where
  deletedCount : Nat
  notFoundIDs : List Int
  deriving Repr, DecidableEq

/-- Second `DeleteMultiplePosts` variant (scheduler.go:385-448): errors on an empty
id list, otherwise filters out matching posts, saves, reports the count of deleted
posts and the requested ids that matched no post, and errors only when the save
fails or nothing was deleted. -/
def DeleteMultiplePosts2 (ids : List Int) (saveOk : Bool) (s : Scheduler) :
    Scheduler × DeleteManyReport × Option GoErr :=
  if ids.isEmpty then (s, ⟨0, []⟩, some GoErr.noIDs)
  else
    let deletedCount := (s.posts.filter (fun p => idInList p.id ids)).length
    let remaining := s.posts.filter (fun p => !(idInList p.id ids))
    let notFoundIDs := ids.filter (fun id => !(s.posts.any (fun p => p.id == id)))
    let s2 := (savePosts saveOk { s with posts := remaining }).1
    if (savePosts saveOk { s with posts := remaining }).2 then
      if deletedCount = 0 then (s2, ⟨deletedCount, notFoundIDs⟩, some GoErr.noneDeleted)
      else (s2, ⟨deletedCount, notFoundIDs⟩, none)
    else (s2, ⟨deletedCount, notFoundIDs⟩, some GoErr.saveFailed)

/-- State of the posts JSON file as `storage.JSONStorage.LoadPosts` sees it. -/
inductive FileState where
  | missing
  | corrupt
  | content (posts : List Post)
  deriving Repr, DecidableEq

/-- `LoadPosts` (pkg/storage): any `os.ReadFile` failure yields the empty collection
with a nil error; a read that succeeds but fails to unmarshal yields an error. -/
def StorageLoadPosts : FileState → Except String (List Post)
  | FileState.missing => Except.ok []
  | FileState.corrupt => Except.error "unmarshal error"
  | FileState.content ps => Except.ok ps

/-- The `nextID` recomputation loop in `loadPosts` (scheduler.go:43-48). -/
def raiseNextID (start : Int) (posts : List Post) : Int :=
  posts.foldl (fun acc p => if p.id ≥ acc then p.id + 1 else acc) start

/-- `loadPosts` (scheduler.go:35-49): on a load error it returns leaving the state
untouched; on success it installs the loaded posts and recomputes `nextID`. -/
def loadPosts (res : Except String (List Post)) (s : Scheduler) : Scheduler :=
  match res with
  | Except.error _ => s
  | Except.ok posts => { s with posts := posts, nextID := raiseNextID s.nextID posts }

/-- `NewScheduler` (scheduler.go:24-33): starts from an empty collection and
`nextID = 1`, then runs `loadPosts` against the storage file.  It has no error
return. -/
def NewScheduler (file : FileState) : Scheduler :=
  let diskPosts := match file with | FileState.content ps => ps | _ => []
  loadPosts (StorageLoadPosts file) { posts := [], nextID := 1, disk := diskPosts }

/-- The cron engine's configuration surface (internal/config): the resolved timezone
location (opaque, modelled as an integer label) and `Cron.Enabled`. -/
structure Config where
  loc : Int
  cronEnabled : Bool
  deriving Repr, DecidableEq

/-- The `cron.Scheduler` state (the unnamed cron source file): running flag, the
`timers` map keyed by post id (values irrelevant to the claims, so just the key
set), the timezone the cron instance was created with, and the current config. -/
structure CronScheduler where
  running : Bool
  timers : List Int
  loc : Int
  config : Config
  deriving Repr, DecidableEq

/-- Insertion of a key into the `timers` map (`cs.timers[post.ID] = ...`). -/
def insertTimer (id : Int) (ts : List Int) : List Int :=
  if idInList id ts then ts else id :: ts

/-- Deletion of a key from the `timers` map (`delete(cs.timers, post.ID)`). -/
def eraseTimer (id : Int) (ts : List Int) : List Int :=
  ts.filter (fun t => !(t == id))

/-- `schedulePost` of the cron engine (lines 184-249): skips — creating no timer —
exactly when the post's scheduled time is strictly before `now`
(`scheduledTime.Before(now)`); otherwise it arms a one-shot timer, records it in
the `timers` map, and stores the post's own id as its cron entry id (the
`UpdatePostCronEntry` save error is only logged).  It always returns nil. -/
def cronSchedulePost (now : Int) (post : Post) (saveOk : Bool) (cs : CronScheduler)
    (s : Scheduler) : CronScheduler × Scheduler :=
  if post.scheduledAt < now then (cs, s)
  else
    let cs1 := { cs with timers := insertTimer post.id cs.timers }
    (cs1, (UpdatePostCronEntry post.id post.id saveOk s).1)

/-- `scheduleAllPendingPosts` (lines 155-181): iterates over a snapshot of the
store's posts and schedules each one whose status is "scheduled". -/
def scheduleAllPendingPosts (now : Int) (saveOk : Bool) (cs : CronScheduler)
    (s : Scheduler) : CronScheduler × Scheduler :=
  s.posts.foldl
    (fun acc p =>
      if p.status = "scheduled" then cronSchedulePost now p saveOk acc.1 acc.2 else acc)
    (cs, s)

/-- `Start` (lines 69-86): errors if already running, otherwise schedules all
pending posts and sets the running flag.  (`scheduleAllPendingPosts` never
actually returns an error, since `schedulePost` always returns nil.) -/
def cronStart (now : Int) (saveOk : Bool) (cs : CronScheduler) (s : Scheduler) :
    CronScheduler × Scheduler × Option GoErr :=
  if cs.running then (cs, s, some GoErr.alreadyRunning)
  else
    let (cs1, s1) := scheduleAllPendingPosts now saveOk cs s
    ({ cs1 with running := true }, s1, none)

/-- `Stop` (lines 89-114): a no-op when not running; otherwise stops every live
timer, clears the `timers` map, and clears the running flag. -/
def cronStop (cs : CronScheduler) : CronScheduler :=
  if cs.running then { cs with timers := [], running := false } else cs

/-- `UpdateConfig` (lines 122-152): stops first if running, swaps in the new config,
recreates the cron instance against the newly resolved timezone, and then starts
again only if it had been running and the new config has cron enabled. -/
def UpdateConfig (newCfg : Config) (now : Int) (saveOk : Bool) (cs : CronScheduler)
    (s : Scheduler) : CronScheduler × Scheduler × Option GoErr :=
  let wasRunning := cs.running
  let cs1 := if wasRunning then cronStop cs else cs
  let cs2 := { cs1 with config := newCfg, loc := newCfg.loc }
  if wasRunning && newCfg.cronEnabled then cronStart now saveOk cs2 s
  else (cs2, s, none)

/-- The primitive effects of the `time.AfterFunc` callback armed by `schedulePost`
(lines 212-229), in source order: publish the post, delete the post's entry from
the `timers` map, clear the post's cron entry id. -/
inductive FireAction where
  | publishCall
  | removeEntry
  | clearCronID
  deriving Repr, DecidableEq

/-- The callback body as the ordered list of its effects, read off lines 212-229. -/
def fireCallbackBody : List FireAction := [FireAction.publishCall, FireAction.removeEntry, FireAction.clearCronID]

/-- Effect of one callback action on the engine-and-store state. -/
def applyFireAction (id : Int) (env : PublishEnv) (saveOk : Bool) :
    FireAction → CronScheduler × Scheduler → CronScheduler × Scheduler
  | FireAction.publishCall, (cs, s) => (cs, (PublishToLinkedIn id env s).1)
  | FireAction.removeEntry, (cs, s) => ({ cs with timers := eraseTimer id cs.timers }, s)
  | FireAction.clearCronID, (cs, s) => (cs, (UpdatePostCronEntry id 0 saveOk s).1)

/-- Each callback action paired with the state in which it executes. -/
def fireSteps (id : Int) (env : PublishEnv) (saveOk : Bool) :
    List FireAction → CronScheduler × Scheduler →
      List (FireAction × (CronScheduler × Scheduler))
  | [], _ => []
  | a :: rest, st => (a, st) :: fireSteps id env saveOk rest (applyFireAction id env saveOk a st)

/-- The state after the whole callback has run. -/
def runFire (id : Int) (env : PublishEnv) (saveOk : Bool) (acts : List FireAction)
    (st : CronScheduler × Scheduler) : CronScheduler × Scheduler :=
  acts.foldl (fun st a => applyFireAction id env saveOk a st) st

/-- Outcome of the CLI `schedulePost` flow (internal/cli/cli.go:86-123). -/
inductive CliOutcome where
  | rejectedEmptyContent
  | rejectedPast
  | called (err : Option GoErr)
  deriving Repr, DecidableEq

/-- The CLI `schedulePost` wrapper (cli.go:86-123): rejects empty content, then
rejects a scheduled time strictly before the timezone-aware now
(`scheduledAt.Before(now)`), and only then calls `AddPost`.  (Config-load and
date-parse failures, which abort even earlier, are outside this model.) -/
def cliSchedulePost (content : String) (scheduledAt now : Int) (saveOk : Bool)
    (s : Scheduler) : Scheduler × CliOutcome :=
  if content = "" then (s, CliOutcome.rejectedEmptyContent)
  else if scheduledAt < now then (s, CliOutcome.rejectedPast)
  else
    let (s1, e) := AddPost content scheduledAt now saveOk s
    (s1, CliOutcome.called e)

/-- One store-mutating operation of the program, with the environment outcomes it
depends on.  `publish` covers the explicit publish menu entry, the publish-due
loop, and the timer-fire path, which all call `PublishToLinkedIn`. -/
inductive Op where
  | add (content : String) (scheduledAt now : Int) (saveOk : Bool)
  | del (id : Int) (saveOk : Bool)
  | delMany1 (ids : List Int) (saveOk : Bool)
  | delMany2 (ids : List Int) (saveOk : Bool)
  | markPosted (id : Int) (saveOk : Bool)
  | updateCron (id entry : Int) (saveOk : Bool)
  | publish (id : Int) (env : PublishEnv)
  deriving Repr, DecidableEq

/-- State reached after one operation. -/
def applyOp (op : Op) (s : Scheduler) : Scheduler :=
  match op with
  | Op.add c t n ok => (AddPost c t n ok s).1
  | Op.del i ok => (DeletePost i ok s).1
  | Op.delMany1 ids ok => (DeleteMultiplePosts1 ids ok s).1
  | Op.delMany2 ids ok => (DeleteMultiplePosts2 ids ok s).1
  | Op.markPosted i ok => (MarkAsPosted i ok s).1
  | Op.updateCron i e ok => (UpdatePostCronEntry i e ok s).1
  | Op.publish i env => (PublishToLinkedIn i env s).1

/-- State reached after a sequence of operations. -/
def runOps (s : Scheduler) : List Op → Scheduler
  | [] => s
  | op :: rest => runOps (applyOp op s) rest

/-- The id for which this operation invokes the Publisher Adapter
(`client.CreatePost`), if it does. -/
def invokedId (op : Op) (s : Scheduler) : Option Int :=
  match op with
  | Op.publish i env => if (PublishToLinkedIn i env s).2.1 then some i else none
  | _ => none

/-- How many operations of the sequence invoke the Publisher Adapter for `id`. -/
def invocationCount (s : Scheduler) (ops : List Op) (id : Int) : Nat :=
  match ops with
  | [] => 0
  | op :: rest =>
    (if invokedId op s = some id then 1 else 0) + invocationCount (applyOp op s) rest id

/-- The ids `AddPost` assigns along a sequence of operations, in order. -/
def assignedIDs (s : Scheduler) : List Op → List Int
  | [] => []
  | op :: rest =>
    match op with
    | Op.add _ _ _ _ => s.nextID :: assignedIDs (applyOp op s) rest
    | _ => assignedIDs (applyOp op s) rest

/-- Status of the post a lookup for `id` finds, if any. -/
def statusAt (id : Int) (ps : List Post) : Option String :=
  (findFirst id ps).map Post.status

/-- The ids of a post collection, in order. -/
def idsOf (ps : List Post) : List Int := ps.map Post.id

/-- Store well-formedness: ids are pairwise distinct and all below `nextID`.
`NewScheduler` on an empty or fresh file satisfies it, and every operation
preserves it. -/
def WF (s : Scheduler) : Prop :=
  (idsOf s.posts).Nodup ∧ ∀ i ∈ idsOf s.posts, i < s.nextID

instance (s : Scheduler) : Decidable (WF s) := by
  unfold WF; exact instDecidableAnd

/-! ### Helper lemmas about the list primitives -/

@[simp]
theorem savePosts_fst_posts (ok : Bool) (s : Scheduler) : ((savePosts ok s).1).posts = s.posts := by
  cases ok <;> rfl

@[simp]
theorem savePosts_fst_nextID (ok : Bool) (s : Scheduler) :
    ((savePosts ok s).1).nextID = s.nextID := by
  cases ok <;> rfl

@[simp]
theorem savePosts_snd (ok : Bool) (s : Scheduler) : (savePosts ok s).2 = ok := by
  cases ok <;> rfl

theorem idInList_iff (i : Int) (l : List Int) : idInList i l = true ↔ i ∈ l := by
  induction l with
  | nil => simp [idInList]
  | cons x xs ih =>
    simp only [idInList, List.mem_cons]
    by_cases h : x = i
    · subst h; simp
    · simp [h, Ne.symm h, ih]

theorem findFirst_eq_some (id : Int) (ps : List Post) (p : Post)
    (h : findFirst id ps = some p) : p.id = id ∧ p ∈ ps := by
  induction ps with
  | nil => simp [findFirst] at h
  | cons q rest ih =>
    by_cases hq : q.id = id
    · simp only [findFirst, if_pos hq, Option.some.injEq] at h
      subst h
      exact ⟨hq, List.mem_cons_self q rest⟩
    · simp only [findFirst, if_neg hq] at h
      obtain ⟨h1, h2⟩ := ih h
      exact ⟨h1, List.mem_cons_of_mem q h2⟩

theorem findFirst_eq_none_of_not_mem (id : Int) (ps : List Post)
    (h : id ∉ idsOf ps) : findFirst id ps = none := by
  induction ps with
  | nil => rfl
  | cons q rest ih =>
    have h1 : ¬ q.id = id := fun hh => h (List.mem_cons.mpr (Or.inl hh.symm))
    have h2 : id ∉ idsOf rest := fun hmem => h (List.mem_cons.mpr (Or.inr hmem))
    simp only [findFirst, if_neg h1]
    exact ih h2

theorem findFirst_append_singleton (id : Int) (ps : List Post) (q : Post) (h : q.id ≠ id) :
    findFirst id (ps ++ [q]) = findFirst id ps := by
  induction ps with
  | nil => simp [findFirst, h]
  | cons r rest ih =>
    by_cases hr : r.id = id
    · simp [findFirst, hr]
    · simp [findFirst, hr, ih]

theorem findFirst_setStatusFirst_self (id : Int) (st : String) (ps : List Post) :
    findFirst id (setStatusFirst id st ps) =
      (findFirst id ps).map (fun p => { p with status := st }) := by
  induction ps with
  | nil => rfl
  | cons q rest ih =>
    by_cases hq : q.id = id
    · simp [setStatusFirst, findFirst, hq]
    · simp [setStatusFirst, findFirst, hq, ih]

theorem findFirst_setStatusFirst_ne (idq idt : Int) (st : String) (ps : List Post)
    (h : idt ≠ idq) :
    findFirst idq (setStatusFirst idt st ps) = findFirst idq ps := by
  induction ps with
  | nil => rfl
  | cons q rest ih =>
    by_cases ht : q.id = idt
    · have hq : ¬ q.id = idq := fun hh => h (ht ▸ hh)
      simp only [setStatusFirst, if_pos ht, findFirst]
      simp only [if_neg hq]
    · by_cases hq : q.id = idq
      · simp only [setStatusFirst, if_neg ht, findFirst]
        simp only [if_pos hq]
      · simp only [setStatusFirst, if_neg ht, findFirst]
        simp only [if_neg hq]
        exact ih

theorem statusAt_setCronFirst (idq idt entry : Int) (ps : List Post) :
    statusAt idq (setCronFirst idt entry ps) = statusAt idq ps := by
  induction ps with
  | nil => rfl
  | cons q rest ih =>
    by_cases ht : q.id = idt
    · by_cases hq : q.id = idq
      · simp only [setCronFirst, if_pos ht, statusAt, findFirst]
        simp only [if_pos hq, Option.map_some']
      · simp only [setCronFirst, if_pos ht, statusAt, findFirst]
        simp only [if_neg hq]
    · by_cases hq : q.id = idq
      · simp only [setCronFirst, if_neg ht, statusAt, findFirst]
        simp only [if_pos hq]
      · simp only [setCronFirst, if_neg ht, statusAt, findFirst]
        simp only [if_neg hq]
        exact ih

theorem removeFirst_sublist (id : Int) (ps qs : List Post)
    (h : removeFirst id ps = some qs) : qs.Sublist ps := by
  induction ps generalizing qs with
  | nil => simp [removeFirst] at h
  | cons q rest ih =>
    by_cases hq : q.id = id
    · simp only [removeFirst, if_pos hq, Option.some.injEq] at h
      subst h
      exact List.Sublist.cons q (List.Sublist.refl rest)
    · simp only [removeFirst, if_neg hq, Option.map_eq_some'] at h
      obtain ⟨qs', hqs', rfl⟩ := h
      exact List.Sublist.cons₂ q (ih qs' hqs')

theorem statusAt_removeFirst_ne (idq idt : Int) (ps qs : List Post)
    (h : removeFirst idt ps = some qs) (hne : idt ≠ idq) :
    statusAt idq qs = statusAt idq ps := by
  induction ps generalizing qs with
  | nil => simp [removeFirst] at h
  | cons q rest ih =>
    by_cases ht : q.id = idt
    · simp only [removeFirst, if_pos ht, Option.some.injEq] at h
      subst h
      have hq : ¬ q.id = idq := fun hh => hne (ht ▸ hh)
      simp [statusAt, findFirst, hq]
    · simp only [removeFirst, if_neg ht, Option.map_eq_some'] at h
      obtain ⟨qs', hqs', rfl⟩ := h
      by_cases hq : q.id = idq
      · simp [statusAt, findFirst, hq]
      · simpa [statusAt, findFirst, hq] using ih qs' hqs'

theorem findFirst_removeFirst_self (id : Int) (ps qs : List Post)
    (hnd : (idsOf ps).Nodup) (h : removeFirst id ps = some qs) :
    findFirst id qs = none := by
  induction ps generalizing qs with
  | nil => simp [removeFirst] at h
  | cons q rest ih =>
    have hnd' : (idsOf rest).Nodup := (List.nodup_cons.mp hnd).2
    by_cases hq : q.id = id
    · simp only [removeFirst, if_pos hq, Option.some.injEq] at h
      subst h
      have hql : q.id ∉ idsOf rest := (List.nodup_cons.mp hnd).1
      exact findFirst_eq_none_of_not_mem id rest (hq ▸ hql)
    · simp only [removeFirst, if_neg hq, Option.map_eq_some'] at h
      obtain ⟨qs', hqs', rfl⟩ := h
      simp only [findFirst, if_neg hq]
      exact ih qs' hnd' hqs'

theorem findFirst_filter_mem (id : Int) (ids : List Int) (ps : List Post)
    (h : idInList id ids = true) :
    findFirst id (ps.filter (fun p => !(idInList p.id ids))) = none := by
  apply findFirst_eq_none_of_not_mem
  intro hmem
  simp only [idsOf, List.mem_map] at hmem
  obtain ⟨p, hp, hpid⟩ := hmem
  have := List.of_mem_filter hp
  rw [hpid] at this
  simp [h] at this

theorem findFirst_filter_not_mem (id : Int) (ids : List Int) (ps : List Post)
    (h : idInList id ids = false) :
    findFirst id (ps.filter (fun p => !(idInList p.id ids))) = findFirst id ps := by
  induction ps with
  | nil => rfl
  | cons q rest ih =>
    by_cases hq : q.id = id
    · have hkeep : idInList q.id ids = false := by rw [hq]; exact h
      simp only [List.filter_cons, hkeep, Bool.not_false, if_pos trivial, findFirst, if_pos hq]
    · by_cases hkeep : idInList q.id ids = true
      · simp only [List.filter_cons, hkeep, Bool.not_true, if_neg Bool.false_ne_true]
        rw [ih]
        simp only [findFirst, if_neg hq]
      · simp only [Bool.not_eq_true] at hkeep
        simp only [List.filter_cons, hkeep, Bool.not_false, if_pos trivial, findFirst,
          if_neg hq]
        exact ih

theorem idsOf_append (ps qs : List Post) : idsOf (ps ++ qs) = idsOf ps ++ idsOf qs := by
  simp [idsOf]

theorem idsOf_setStatusFirst (id : Int) (st : String) (ps : List Post) :
    idsOf (setStatusFirst id st ps) = idsOf ps := by
  induction ps with
  | nil => rfl
  | cons q rest ih =>
    by_cases hq : q.id = id
    · simp [setStatusFirst, idsOf, hq]
    · simp only [setStatusFirst, if_neg hq]
      simpa [idsOf] using ih

theorem idsOf_setCronFirst (id entry : Int) (ps : List Post) :
    idsOf (setCronFirst id entry ps) = idsOf ps := by
  induction ps with
  | nil => rfl
  | cons q rest ih =>
    by_cases hq : q.id = id
    · simp [setCronFirst, idsOf, hq]
    · simp only [setCronFirst, if_neg hq]
      simpa [idsOf] using ih

theorem idInList_eraseTimer (id : Int) (ts : List Int) :
    idInList id (eraseTimer id ts) = false := by
  induction ts with
  | nil => rfl
  | cons t rest ih =>
    by_cases h : t = id
    · simpa [eraseTimer, List.filter_cons, h] using ih
    · simpa [eraseTimer, List.filter_cons, h, idInList] using ih

/-! ### Concrete counterexamples -/

/-- C2 counterexample: a post whose scheduled time is exactly equal to the current
configured-timezone time is not skipped by `schedulePost` — a timer entry is
created for it (the skip test is the strict `scheduledTime.Before(now)`), refuting
the claim that no Dispatch Entry is created whenever `scheduledAt ≤ now`. -/
theorem timerCreatedAtExactDeadline :
    (Post.mk 1 "x" 5 "scheduled" 0 0).scheduledAt ≤ 5 ∧
      (cronSchedulePost 5 (Post.mk 1 "x" 5 "scheduled" 0 0) true
          (CronScheduler.mk true [] 0 (Config.mk 0 true))
          (Scheduler.mk [Post.mk 1 "x" 5 "scheduled" 0 0] 2
            [Post.mk 1 "x" 5 "scheduled" 0 0])).1.timers = [1] := by
  decide

/-- C3 counterexample: when the timer callback for post 1 fires, its first action is
the publish call, executed in a state whose `timers` map still contains the entry
for post 1 — the entry is removed only after the publish, refuting the claim that
the entry is absent from the map at every moment during the publish call. -/
theorem entryStillPresentDuringPublish :
    (fireSteps 1 (PublishEnv.adapterOk true) true fireCallbackBody
          (CronScheduler.mk true [1] 0 (Config.mk 0 true),
            Scheduler.mk [Post.mk 1 "x" 5 "scheduled" 0 1] 2
              [Post.mk 1 "x" 5 "scheduled" 0 1])).head? =
        some (FireAction.publishCall,
          (CronScheduler.mk true [1] 0 (Config.mk 0 true),
            Scheduler.mk [Post.mk 1 "x" 5 "scheduled" 0 1] 2
              [Post.mk 1 "x" 5 "scheduled" 0 1])) ∧
      idInList 1 (CronScheduler.mk true [1] 0 (Config.mk 0 true)).timers = true := by
  decide

/-- C4 counterexample: `AddPost` called with empty content and a scheduled time not
after the current time (now = 5, scheduledAt = 0) returns nil and creates the
item, refuting the claim that such a call returns a `ValidationError` and creates
no item. -/
theorem addPostAcceptsInvalidInput :
    (AddPost "" 0 5 true (Scheduler.mk [] 1 [])).2 = none ∧
      (AddPost "" 0 5 true (Scheduler.mk [] 1 [])).1.posts.length = 1 := by
  decide

/-- C5 counterexample: the first `DeleteMultiplePosts` variant, applied to
`[1, 2, 999]` with posts 1 and 2 present and 999 absent, deletes and persists both
posts but returns an error for the absent id instead of reporting it as data,
refuting the claim that absent ids are reported rather than returned as an error. -/
theorem deleteMany1ErrorsOnAbsentIds :
    (DeleteMultiplePosts1 [1, 2, 999] true
          (Scheduler.mk [Post.mk 1 "a" 10 "scheduled" 0 0, Post.mk 2 "b" 20 "scheduled" 0 0] 3
            [Post.mk 1 "a" 10 "scheduled" 0 0, Post.mk 2 "b" 20 "scheduled" 0 0])).2 =
        some GoErr.someNotFound ∧
      (DeleteMultiplePosts1 [1, 2, 999] true
          (Scheduler.mk [Post.mk 1 "a" 10 "scheduled" 0 0, Post.mk 2 "b" 20 "scheduled" 0 0] 3
            [Post.mk 1 "a" 10 "scheduled" 0 0, Post.mk 2 "b" 20 "scheduled" 0 0])).1.posts = [] := by
  decide

/-- C6 counterexample: id 2 is assigned, the post carrying it is deleted, and after a
reload from persistence the very next add assigns id 2 again — `loadPosts`
recomputes `nextID` from the surviving posts only, refuting the claim that an id
is never reassigned after a restart. -/
theorem idReusedAfterRestart :
    ((AddPost "b" 20 0 true
          (AddPost "a" 10 0 true (NewScheduler FileState.missing)).1).1.posts.map Post.id
        = [1, 2]) ∧
      ((AddPost "c" 30 0 true
          (NewScheduler (FileState.content
            (DeletePost 2 true
              (AddPost "b" 20 0 true
                (AddPost "a" 10 0 true (NewScheduler FileState.missing)).1).1).1.disk))).1.posts.map
            Post.id = [1, 2]) := by
  decide

/-- C7 counterexample: when the persistence load fails (corrupt file), `loadPosts`
swallows the error and `NewScheduler` still returns a scheduler holding the empty
collection — initialization never fails, refuting the claim that a load error is
fatal to initialization. -/
theorem loadFailureNotFatal :
    (∃ e, StorageLoadPosts FileState.corrupt = Except.error e) ∧
      NewScheduler FileState.corrupt = Scheduler.mk [] 1 [] := by
  exact ⟨⟨"unmarshal error", rfl⟩, rfl⟩

/-- C8 counterexample: `UpdateConfig` called while the engine is running, with a new
config whose cron flag is disabled, stops the engine and never starts it again —
no entries are recreated — refuting the claim that every call while running ends
with a `Start`. -/
theorem updateConfigSkipsRestartWhenDisabled :
    ((UpdateConfig (Config.mk 1 false) 0 true
          (CronScheduler.mk true [1] 0 (Config.mk 0 true))
          (Scheduler.mk [Post.mk 1 "x" 100 "scheduled" 0 1] 2
            [Post.mk 1 "x" 100 "scheduled" 0 1])).1.running = false) ∧
      ((UpdateConfig (Config.mk 1 false) 0 true
          (CronScheduler.mk true [1] 0 (Config.mk 0 true))
          (Scheduler.mk [Post.mk 1 "x" 100 "scheduled" 0 1] 2
            [Post.mk 1 "x" 100 "scheduled" 0 1])).1.timers = []) := by
  decide

/-- C10 counterexample: on the empty id list the two `DeleteMultiplePosts` variants
disagree — the first saves and returns nil, the second returns the "no post IDs
provided" error — refuting the claim that they always succeed or fail together. -/
theorem deleteManyVariantsDisagreeOnEmptyList :
    (DeleteMultiplePosts1 [] true (Scheduler.mk [] 1 [])).2 = none ∧
      (DeleteMultiplePosts2 [] true (Scheduler.mk [] 1 [])).2.2 = some GoErr.noIDs := by
  decide

/-- C1 counterexample: the CLI "check due posts" flow calls `MarkAsPosted`, which
moves a scheduled item to the terminal status "posted" without any Publisher
Adapter invocation — so an item can reach a terminal status with zero adapter
invocations, refuting the claim that every such item saw exactly one. -/
theorem postedWithZeroPublisherInvocations :
    statusAt 1
        (runOps (Scheduler.mk [] 1 []) [Op.add "x" 10 0 true, Op.markPosted 1 true]).posts =
        some "posted" ∧
      invocationCount (Scheduler.mk [] 1 []) [Op.add "x" 10 0 true, Op.markPosted 1 true] 1
        = 0 := by
  decide

/-! ### C2 (amended): the skip boundary of the per-item scheduling step -/

/-- C2 amended: `schedulePost` creates no timer entry exactly when the post's
scheduled time is strictly before the configured-timezone now; when
`now ≤ scheduledAt` — including exact equality — a timer entry for the post's id
is recorded in the tracking map. -/
theorem cronSchedulePost_skip_boundary (now : Int) (post : Post) (saveOk : Bool)
    (cs : CronScheduler) (s : Scheduler) :
    (post.scheduledAt < now → cronSchedulePost now post saveOk cs s = (cs, s)) ∧
      (now ≤ post.scheduledAt →
        (cronSchedulePost now post saveOk cs s).1.timers = insertTimer post.id cs.timers) := by
  constructor
  · intro h
    simp only [cronSchedulePost, if_pos h]
  · intro h
    simp only [cronSchedulePost, if_neg (not_lt.mpr h)]

/-- Witness for `cronSchedulePost_skip_boundary` at concrete inputs: a post due at
instant 5 is skipped when now = 7, and gets a timer entry when now = 5. -/
theorem cronSchedulePost_skip_boundary_w :
    (cronSchedulePost 7 (Post.mk 1 "x" 5 "scheduled" 0 0) true
        (CronScheduler.mk true [] 0 (Config.mk 0 true)) (Scheduler.mk [] 1 []) =
      (CronScheduler.mk true [] 0 (Config.mk 0 true), Scheduler.mk [] 1 [])) ∧
      ((cronSchedulePost 5 (Post.mk 1 "x" 5 "scheduled" 0 0) true
          (CronScheduler.mk true [] 0 (Config.mk 0 true)) (Scheduler.mk [] 1 [])).1.timers =
        insertTimer 1 []) :=
  ⟨(cronSchedulePost_skip_boundary 7 (Post.mk 1 "x" 5 "scheduled" 0 0) true
      (CronScheduler.mk true [] 0 (Config.mk 0 true)) (Scheduler.mk [] 1 [])).1 (by decide),
    (cronSchedulePost_skip_boundary 5 (Post.mk 1 "x" 5 "scheduled" 0 0) true
      (CronScheduler.mk true [] 0 (Config.mk 0 true)) (Scheduler.mk [] 1 [])).2 (by decide)⟩

/-! ### C4 (amended): AddPost validates nothing; the CLI caller does -/

/-- C4 amended: `AddPost` performs no validation — for every content and scheduled
time it appends a post carrying the next unused id with status "scheduled",
increments `nextID`, persists, and returns nil exactly when the save succeeds.
The empty-content and past-time rejections live in the CLI caller, which returns
without calling `AddPost` in those cases (a scheduled time exactly equal to now is
accepted). -/
theorem addPost_validation_lives_in_cli (content : String) (schedAt now : Int)
    (saveOk : Bool) (s : Scheduler) :
    ((AddPost content schedAt now saveOk s).1.posts =
        s.posts ++ [Post.mk s.nextID content schedAt "scheduled" now 0]) ∧
      ((AddPost content schedAt now saveOk s).1.nextID = s.nextID + 1) ∧
      ((AddPost content schedAt now saveOk s).2 = none ↔ saveOk = true) ∧
      (content = "" →
        cliSchedulePost content schedAt now saveOk s = (s, CliOutcome.rejectedEmptyContent)) ∧
      (content ≠ "" → schedAt < now →
        cliSchedulePost content schedAt now saveOk s = (s, CliOutcome.rejectedPast)) ∧
      (content ≠ "" → now ≤ schedAt →
        cliSchedulePost content schedAt now saveOk s =
          ((AddPost content schedAt now saveOk s).1,
            CliOutcome.called (AddPost content schedAt now saveOk s).2)) := by
  refine ⟨?_, ?_, ?_, ?_, ?_, ?_⟩
  · cases saveOk <;> simp [AddPost, savePosts]
  · cases saveOk <;> simp [AddPost, savePosts]
  · cases saveOk <;> simp [AddPost, savePosts]
  · intro h
    simp only [cliSchedulePost, if_pos h]
  · intro h h2
    simp only [cliSchedulePost, if_neg h, if_pos h2]
  · intro h h2
    simp only [cliSchedulePost, if_neg h, if_neg (not_lt.mpr h2)]

/-- Witness for `addPost_validation_lives_in_cli`: the CLI accepts a post scheduled
for exactly the current instant and hands it to `AddPost`. -/
theorem addPost_validation_lives_in_cli_w :
    cliSchedulePost "x" 5 5 true (Scheduler.mk [] 1 []) =
      ((AddPost "x" 5 5 true (Scheduler.mk [] 1 [])).1,
        CliOutcome.called (AddPost "x" 5 5 true (Scheduler.mk [] 1 [])).2) :=
  (addPost_validation_lives_in_cli "x" 5 5 true (Scheduler.mk [] 1 [])).2.2.2.2.2
    (by decide) (by decide)

/-! ### C7 (amended): load failures are silently swallowed at startup -/

/-- C7 amended: `NewScheduler` never fails.  A persistence load error (corrupt file)
is ignored by `loadPosts`, leaving the scheduler exactly as initialized — the
empty collection with `nextID = 1`; an unreadable (missing) file yields the empty
collection without an error from the storage layer; a successful load installs
the loaded posts and recomputes `nextID` above every loaded id. -/
theorem newScheduler_swallows_load_errors (e : String) (ps : List Post) :
    (∀ s : Scheduler, loadPosts (Except.error e) s = s) ∧
      NewScheduler FileState.corrupt = Scheduler.mk [] 1 [] ∧
      StorageLoadPosts FileState.missing = Except.ok [] ∧
      NewScheduler (FileState.content ps) = Scheduler.mk ps (raiseNextID 1 ps) ps :=
  ⟨fun _ => rfl, rfl, rfl, rfl⟩

/-- Witness for `newScheduler_swallows_load_errors`: a load error leaves a concrete
scheduler state untouched. -/
theorem newScheduler_swallows_load_errors_w :
    loadPosts (Except.error "boom") (Scheduler.mk [Post.mk 1 "a" 2 "scheduled" 0 0] 2 []) =
      Scheduler.mk [Post.mk 1 "a" 2 "scheduled" 0 0] 2 [] :=
  (newScheduler_swallows_load_errors "boom" []).1
    (Scheduler.mk [Post.mk 1 "a" 2 "scheduled" 0 0] 2 [])

/-! ### C8 (amended): UpdateConfig restarts only when the new config enables cron -/

/-- C8 amended: called while running, `UpdateConfig` performs a full `Stop`
(cancelling every live entry), swaps in the new config with its re-resolved
timezone, and then calls `Start` — rescheduling every pending item against the
new zone's now — only when the new config has cron enabled; with cron disabled
the engine is left stopped with no entries.  Called while stopped, it only swaps
the config and resolved timezone: the entry map is untouched and the engine is
not started. -/
theorem updateConfig_semantics (newCfg : Config) (now : Int) (saveOk : Bool)
    (cs : CronScheduler) (s : Scheduler) :
    (cs.running = true → newCfg.cronEnabled = true →
        UpdateConfig newCfg now saveOk cs s =
          cronStart now saveOk (CronScheduler.mk false [] newCfg.loc newCfg) s) ∧
      (cs.running = true → newCfg.cronEnabled = false →
        UpdateConfig newCfg now saveOk cs s =
          (CronScheduler.mk false [] newCfg.loc newCfg, s, none)) ∧
      (cs.running = false →
        UpdateConfig newCfg now saveOk cs s =
          ({ cs with config := newCfg, loc := newCfg.loc }, s, none)) := by
  refine ⟨?_, ?_, ?_⟩
  · intro h h2
    simp [UpdateConfig, cronStop, h, h2]
  · intro h h2
    simp [UpdateConfig, cronStop, h, h2]
  · intro h
    simp [UpdateConfig, cronStop, h]

/-- Witness for `updateConfig_semantics`: a stopped engine only has its config and
timezone swapped. -/
theorem updateConfig_semantics_w :
    UpdateConfig (Config.mk 3 true) 0 true
        (CronScheduler.mk false [7] 0 (Config.mk 0 false)) (Scheduler.mk [] 1 []) =
      ({ CronScheduler.mk false [7] 0 (Config.mk 0 false) with
          config := Config.mk 3 true, loc := (3 : Int) }, Scheduler.mk [] 1 [], none) :=
  (updateConfig_semantics (Config.mk 3 true) 0 true
      (CronScheduler.mk false [7] 0 (Config.mk 0 false)) (Scheduler.mk [] 1 [])).2.2 rfl

/-! ### C3 (amended): the fired callback publishes first, then removes its entry -/

/-- C3 amended: when the deferred execution for an id fires from a state whose
tracking map contains that id's entry, the publish call is the first action and
executes while the entry is still present in the map; the entry is removed
immediately after the publish returns (and before the cron entry id is cleared),
so it is absent once the callback completes. -/
theorem fireCallback_publishes_before_removal (id : Int) (env : PublishEnv)
    (saveOk : Bool) (cs : CronScheduler) (s : Scheduler)
    (h : idInList id cs.timers = true) :
    (∀ st, (FireAction.publishCall, st) ∈ fireSteps id env saveOk fireCallbackBody (cs, s) →
        idInList id st.1.timers = true) ∧
      idInList id (runFire id env saveOk fireCallbackBody (cs, s)).1.timers = false := by
  constructor
  · intro st hmem
    simp only [fireCallbackBody, fireSteps, applyFireAction, List.mem_cons,
      List.not_mem_nil, or_false, Prod.mk.injEq] at hmem
    rcases hmem with ⟨_, rfl⟩ | ⟨hcon, _⟩ | ⟨hcon, _⟩
    · exact h
    · exact absurd hcon (by simp)
    · exact absurd hcon (by simp)
  · simp only [runFire, fireCallbackBody, List.foldl_cons, List.foldl_nil, applyFireAction]
    exact idInList_eraseTimer id cs.timers

/-- Witness for `fireCallback_publishes_before_removal` at a concrete engine state
holding a live entry for post 1. -/
theorem fireCallback_publishes_before_removal_w :
    idInList 1
        (runFire 1 (PublishEnv.adapterOk true) true fireCallbackBody
          (CronScheduler.mk true [1] 0 (Config.mk 0 true),
            Scheduler.mk [Post.mk 1 "x" 5 "scheduled" 0 1] 2
              [Post.mk 1 "x" 5 "scheduled" 0 1])).1.timers = false :=
  (fireCallback_publishes_before_removal 1 (PublishEnv.adapterOk true) true
      (CronScheduler.mk true [1] 0 (Config.mk 0 true))
      (Scheduler.mk [Post.mk 1 "x" 5 "scheduled" 0 1] 2
        [Post.mk 1 "x" 5 "scheduled" 0 1]) (by decide)).2

/-! ### Per-operation characterization lemmas -/

theorem applyOp_add (c : String) (t n : Int) (ok : Bool) (s : Scheduler) :
    (applyOp (Op.add c t n ok) s).posts = s.posts ++ [Post.mk s.nextID c t "scheduled" n 0] ∧
      (applyOp (Op.add c t n ok) s).nextID = s.nextID + 1 := by
  constructor <;> simp [applyOp, AddPost]

theorem applyOp_del_none (i : Int) (ok : Bool) (s : Scheduler)
    (h : removeFirst i s.posts = none) : applyOp (Op.del i ok) s = s := by
  simp [applyOp, DeletePost, h]

theorem applyOp_del_some (i : Int) (ok : Bool) (s : Scheduler) (qs : List Post)
    (h : removeFirst i s.posts = some qs) :
    (applyOp (Op.del i ok) s).posts = qs ∧ (applyOp (Op.del i ok) s).nextID = s.nextID := by
  constructor <;> simp [applyOp, DeletePost, h]

theorem applyOp_mark_none (i : Int) (ok : Bool) (s : Scheduler)
    (h : findFirst i s.posts = none) : applyOp (Op.markPosted i ok) s = s := by
  simp [applyOp, MarkAsPosted, h]

theorem applyOp_mark_some (i : Int) (ok : Bool) (s : Scheduler) (p : Post)
    (h : findFirst i s.posts = some p) :
    (applyOp (Op.markPosted i ok) s).posts = setStatusFirst i "posted" s.posts ∧
      (applyOp (Op.markPosted i ok) s).nextID = s.nextID := by
  constructor <;> simp [applyOp, MarkAsPosted, h]

theorem applyOp_cron_none (i e : Int) (ok : Bool) (s : Scheduler)
    (h : findFirst i s.posts = none) : applyOp (Op.updateCron i e ok) s = s := by
  simp [applyOp, UpdatePostCronEntry, h]

theorem applyOp_cron_some (i e : Int) (ok : Bool) (s : Scheduler) (p : Post)
    (h : findFirst i s.posts = some p) :
    (applyOp (Op.updateCron i e ok) s).posts = setCronFirst i e s.posts ∧
      (applyOp (Op.updateCron i e ok) s).nextID = s.nextID := by
  constructor <;> simp [applyOp, UpdatePostCronEntry, h]

theorem applyOp_delMany1 (ids : List Int) (ok : Bool) (s : Scheduler) :
    (applyOp (Op.delMany1 ids ok) s).posts = s.posts.filter (fun p => !(idInList p.id ids)) ∧
      (applyOp (Op.delMany1 ids ok) s).nextID = s.nextID := by
  constructor <;>
    · simp only [applyOp, DeleteMultiplePosts1]
      split
      · split <;> simp
      · simp

theorem applyOp_delMany2_nil (ok : Bool) (s : Scheduler) :
    applyOp (Op.delMany2 [] ok) s = s := by
  simp [applyOp, DeleteMultiplePosts2]

theorem applyOp_delMany2_ne_nil (ids : List Int) (ok : Bool) (s : Scheduler)
    (h : ids ≠ []) :
    (applyOp (Op.delMany2 ids ok) s).posts = s.posts.filter (fun p => !(idInList p.id ids)) ∧
      (applyOp (Op.delMany2 ids ok) s).nextID = s.nextID := by
  have hne : ids.isEmpty = false := by cases ids with | nil => exact absurd rfl h | cons x xs => rfl
  constructor <;>
    · simp only [applyOp, DeleteMultiplePosts2, hne, Bool.false_eq_true, if_false]
      split
      · split <;> simp
      · simp

theorem applyOp_publish_notFound (i : Int) (env : PublishEnv) (s : Scheduler)
    (h : findFirst i s.posts = none) : applyOp (Op.publish i env) s = s := by
  simp [applyOp, PublishToLinkedIn, h]

theorem applyOp_publish_notSched (i : Int) (env : PublishEnv) (s : Scheduler) (p : Post)
    (h : findFirst i s.posts = some p) (hs : ¬ p.status = "scheduled") :
    applyOp (Op.publish i env) s = s := by
  simp [applyOp, PublishToLinkedIn, h, hs]

theorem applyOp_publish_preFail (i : Int) (s : Scheduler) (p : Post)
    (h : findFirst i s.posts = some p) (hs : p.status = "scheduled") :
    applyOp (Op.publish i PublishEnv.preFail) s = s := by
  simp [applyOp, PublishToLinkedIn, h, hs]

theorem applyOp_publish_fail (i : Int) (ok : Bool) (s : Scheduler) (p : Post)
    (h : findFirst i s.posts = some p) (hs : p.status = "scheduled") :
    (applyOp (Op.publish i (PublishEnv.adapterFail ok)) s).posts =
        setStatusFirst i "failed" s.posts ∧
      (applyOp (Op.publish i (PublishEnv.adapterFail ok)) s).nextID = s.nextID := by
  constructor <;> simp [applyOp, PublishToLinkedIn, h, hs]

theorem applyOp_publish_ok (i : Int) (ok : Bool) (s : Scheduler) (p : Post)
    (h : findFirst i s.posts = some p) (hs : p.status = "scheduled") :
    (applyOp (Op.publish i (PublishEnv.adapterOk ok)) s).posts =
        setStatusFirst i "posted" s.posts ∧
      (applyOp (Op.publish i (PublishEnv.adapterOk ok)) s).nextID = s.nextID := by
  constructor <;> simp [applyOp, PublishToLinkedIn, h, hs]

theorem applyOp_nextID_add (c : String) (t n : Int) (ok : Bool) (s : Scheduler) :
    (applyOp (Op.add c t n ok) s).nextID = s.nextID + 1 :=
  (applyOp_add c t n ok s).2

theorem applyOp_nextID_other (op : Op) (s : Scheduler)
    (h : ∀ c t n ok, op ≠ Op.add c t n ok) : (applyOp op s).nextID = s.nextID := by
  cases op with
  | add c t n ok => exact absurd rfl (h c t n ok)
  | del i ok =>
    cases hr : removeFirst i s.posts with
    | none => rw [applyOp_del_none i ok s hr]
    | some qs => exact (applyOp_del_some i ok s qs hr).2
  | delMany1 ids ok => exact (applyOp_delMany1 ids ok s).2
  | delMany2 ids ok =>
    cases ids with
    | nil => rw [applyOp_delMany2_nil]
    | cons x xs => exact (applyOp_delMany2_ne_nil (x :: xs) ok s (by simp)).2
  | markPosted i ok =>
    cases hf : findFirst i s.posts with
    | none => rw [applyOp_mark_none i ok s hf]
    | some p => exact (applyOp_mark_some i ok s p hf).2
  | updateCron i e ok =>
    cases hf : findFirst i s.posts with
    | none => rw [applyOp_cron_none i e ok s hf]
    | some p => exact (applyOp_cron_some i e ok s p hf).2
  | publish i env =>
    cases hf : findFirst i s.posts with
    | none => rw [applyOp_publish_notFound i env s hf]
    | some p =>
      by_cases hs : p.status = "scheduled"
      · cases env with
        | preFail => rw [applyOp_publish_preFail i s p hf hs]
        | adapterFail ok => exact (applyOp_publish_fail i ok s p hf hs).2
        | adapterOk ok => exact (applyOp_publish_ok i ok s p hf hs).2
      · rw [applyOp_publish_notSched i env s p hf hs]

theorem nextID_mono (op : Op) (s : Scheduler) : s.nextID ≤ (applyOp op s).nextID := by
  by_cases hadd : ∃ c t n ok, op = Op.add c t n ok
  · obtain ⟨c, t, n, ok, rfl⟩ := hadd
    rw [applyOp_nextID_add]
    omega
  · push_neg at hadd
    rw [applyOp_nextID_other op s hadd]

/-! ### Invariant preservation along operation traces -/

theorem statusAt_setStatusFirst_not_scheduled (id idt : Int) (st : String) (ps : List Post)
    (hst : st ≠ "scheduled") (h : statusAt id ps ≠ some "scheduled") :
    statusAt id (setStatusFirst idt st ps) ≠ some "scheduled" := by
  by_cases hts : idt = id
  · subst hts
    rw [statusAt, findFirst_setStatusFirst_self]
    cases findFirst idt ps <;> simp [hst]
  · rw [statusAt, findFirst_setStatusFirst_ne id idt st ps hts]
    exact h

theorem statusAt_filter_not_scheduled (id : Int) (ids : List Int) (ps : List Post)
    (h : statusAt id ps ≠ some "scheduled") :
    statusAt id (ps.filter (fun p => !(idInList p.id ids))) ≠ some "scheduled" := by
  cases hmem : idInList id ids with
  | true =>
    rw [statusAt, findFirst_filter_mem id ids ps hmem]
    simp
  | false =>
    rw [statusAt, findFirst_filter_not_mem id ids ps hmem]
    exact h

theorem statusAt_removeFirst_not_scheduled (id idt : Int) (ps qs : List Post)
    (hnd : (idsOf ps).Nodup) (hr : removeFirst idt ps = some qs)
    (h : statusAt id ps ≠ some "scheduled") :
    statusAt id qs ≠ some "scheduled" := by
  by_cases hts : idt = id
  · subst hts
    rw [statusAt, findFirst_removeFirst_self idt ps qs hnd hr]
    simp
  · rw [statusAt_removeFirst_ne id idt ps qs hr hts]
    exact h

theorem statusAt_not_scheduled_preserved (op : Op) (s : Scheduler) (id : Int)
    (hWF : WF s) (hid : id < s.nextID) (h : statusAt id s.posts ≠ some "scheduled") :
    statusAt id (applyOp op s).posts ≠ some "scheduled" := by
  cases op with
  | add c t n ok =>
    rw [(applyOp_add c t n ok s).1, statusAt,
      findFirst_append_singleton id s.posts _ (by exact fun hh => absurd hh (by simpa using (ne_of_lt hid).symm))]
    exact h
  | del i ok =>
    cases hr : removeFirst i s.posts with
    | none => rw [applyOp_del_none i ok s hr]; exact h
    | some qs =>
      rw [(applyOp_del_some i ok s qs hr).1]
      exact statusAt_removeFirst_not_scheduled id i s.posts qs hWF.1 hr h
  | delMany1 ids ok =>
    rw [(applyOp_delMany1 ids ok s).1]
    exact statusAt_filter_not_scheduled id ids s.posts h
  | delMany2 ids ok =>
    cases ids with
    | nil => rw [applyOp_delMany2_nil]; exact h
    | cons x xs =>
      rw [(applyOp_delMany2_ne_nil (x :: xs) ok s (by simp)).1]
      exact statusAt_filter_not_scheduled id (x :: xs) s.posts h
  | markPosted i ok =>
    cases hf : findFirst i s.posts with
    | none => rw [applyOp_mark_none i ok s hf]; exact h
    | some p =>
      rw [(applyOp_mark_some i ok s p hf).1]
      exact statusAt_setStatusFirst_not_scheduled id i "posted" s.posts (by decide) h
  | updateCron i e ok =>
    cases hf : findFirst i s.posts with
    | none => rw [applyOp_cron_none i e ok s hf]; exact h
    | some p =>
      rw [(applyOp_cron_some i e ok s p hf).1, statusAt_setCronFirst id i e s.posts]
      exact h
  | publish i env =>
    cases hf : findFirst i s.posts with
    | none => rw [applyOp_publish_notFound i env s hf]; exact h
    | some p =>
      by_cases hs : p.status = "scheduled"
      · cases env with
        | preFail => rw [applyOp_publish_preFail i s p hf hs]; exact h
        | adapterFail ok =>
          rw [(applyOp_publish_fail i ok s p hf hs).1]
          exact statusAt_setStatusFirst_not_scheduled id i "failed" s.posts (by decide) h
        | adapterOk ok =>
          rw [(applyOp_publish_ok i ok s p hf hs).1]
          exact statusAt_setStatusFirst_not_scheduled id i "posted" s.posts (by decide) h
      · rw [applyOp_publish_notSched i env s p hf hs]; exact h

theorem wf_lists_sublist (ps qs : List Post) (n : Int)
    (hnd : (idsOf ps).Nodup) (hb : ∀ i ∈ idsOf ps, i < n) (hsub : qs.Sublist ps) :
    (idsOf qs).Nodup ∧ ∀ i ∈ idsOf qs, i < n := by
  have hsub' : (idsOf qs).Sublist (idsOf ps) := hsub.map Post.id
  exact ⟨hnd.sublist hsub', fun i hi => hb i (hsub'.subset hi)⟩

theorem WF_applyOp (op : Op) (s : Scheduler) (hWF : WF s) : WF (applyOp op s) := by
  obtain ⟨hnd, hb⟩ := hWF
  cases op with
  | add c t n ok =>
    obtain ⟨h1, h2⟩ := applyOp_add c t n ok s
    constructor
    · rw [h1, idsOf_append]
      rw [List.nodup_append]
      refine ⟨hnd, List.nodup_singleton _, ?_⟩
      intro x hx
      have hlt := hb x hx
      simp only [idsOf, List.map_cons, List.map_nil]
      intro hmem
      rw [List.mem_singleton] at hmem
      subst hmem
      exact absurd rfl (ne_of_lt hlt)
    · intro i hi
      rw [h1, idsOf_append] at hi
      rw [h2]
      rcases List.mem_append.mp hi with hi | hi
      · exact lt_trans (hb i hi) (by omega)
      · simp only [idsOf, List.map_cons, List.map_nil, List.mem_singleton] at hi
        subst hi
        omega
  | del i ok =>
    cases hr : removeFirst i s.posts with
    | none => rw [applyOp_del_none i ok s hr]; exact ⟨hnd, hb⟩
    | some qs =>
      obtain ⟨h1, h2⟩ := applyOp_del_some i ok s qs hr
      have := wf_lists_sublist s.posts qs s.nextID hnd hb (removeFirst_sublist i s.posts qs hr)
      exact ⟨h1 ▸ this.1, fun j hj => h2 ▸ this.2 j (h1 ▸ hj)⟩
  | delMany1 ids ok =>
    obtain ⟨h1, h2⟩ := applyOp_delMany1 ids ok s
    have := wf_lists_sublist s.posts (s.posts.filter (fun p => !(idInList p.id ids)))
      s.nextID hnd hb (List.filter_sublist s.posts)
    exact ⟨h1 ▸ this.1, fun j hj => h2 ▸ this.2 j (h1 ▸ hj)⟩
  | delMany2 ids ok =>
    cases ids with
    | nil => rw [applyOp_delMany2_nil]; exact ⟨hnd, hb⟩
    | cons x xs =>
      obtain ⟨h1, h2⟩ := applyOp_delMany2_ne_nil (x :: xs) ok s (by simp)
      have := wf_lists_sublist s.posts (s.posts.filter (fun p => !(idInList p.id (x :: xs))))
        s.nextID hnd hb (List.filter_sublist s.posts)
      exact ⟨h1 ▸ this.1, fun j hj => h2 ▸ this.2 j (h1 ▸ hj)⟩
  | markPosted i ok =>
    cases hf : findFirst i s.posts with
    | none => rw [applyOp_mark_none i ok s hf]; exact ⟨hnd, hb⟩
    | some p =>
      obtain ⟨h1, h2⟩ := applyOp_mark_some i ok s p hf
      refine ⟨?_, ?_⟩
      · rw [h1, idsOf_setStatusFirst]; exact hnd
      · intro j hj
        rw [h1, idsOf_setStatusFirst] at hj
        rw [h2]
        exact hb j hj
  | updateCron i e ok =>
    cases hf : findFirst i s.posts with
    | none => rw [applyOp_cron_none i e ok s hf]; exact ⟨hnd, hb⟩
    | some p =>
      obtain ⟨h1, h2⟩ := applyOp_cron_some i e ok s p hf
      refine ⟨?_, ?_⟩
      · rw [h1, idsOf_setCronFirst]; exact hnd
      · intro j hj
        rw [h1, idsOf_setCronFirst] at hj
        rw [h2]
        exact hb j hj
  | publish i env =>
    cases hf : findFirst i s.posts with
    | none => rw [applyOp_publish_notFound i env s hf]; exact ⟨hnd, hb⟩
    | some p =>
      by_cases hs : p.status = "scheduled"
      · cases env with
        | preFail => rw [applyOp_publish_preFail i s p hf hs]; exact ⟨hnd, hb⟩
        | adapterFail ok =>
          obtain ⟨h1, h2⟩ := applyOp_publish_fail i ok s p hf hs
          refine ⟨?_, ?_⟩
          · rw [h1, idsOf_setStatusFirst]; exact hnd
          · intro j hj
            rw [h1, idsOf_setStatusFirst] at hj
            rw [h2]
            exact hb j hj
        | adapterOk ok =>
          obtain ⟨h1, h2⟩ := applyOp_publish_ok i ok s p hf hs
          refine ⟨?_, ?_⟩
          · rw [h1, idsOf_setStatusFirst]; exact hnd
          · intro j hj
            rw [h1, idsOf_setStatusFirst] at hj
            rw [h2]
            exact hb j hj
      · rw [applyOp_publish_notSched i env s p hf hs]; exact ⟨hnd, hb⟩

theorem publish_invoked_iff (i : Int) (env : PublishEnv) (s : Scheduler) :
    (PublishToLinkedIn i env s).2.1 = true ↔
      statusAt i s.posts = some "scheduled" ∧ env ≠ PublishEnv.preFail := by
  cases hf : findFirst i s.posts with
  | none => simp [PublishToLinkedIn, hf, statusAt]
  | some p =>
    by_cases hs : p.status = "scheduled"
    · cases env <;> simp [PublishToLinkedIn, hf, hs, statusAt]
    · simp [PublishToLinkedIn, hf, hs, statusAt]

theorem invokedId_eq_some (op : Op) (s : Scheduler) (id : Int)
    (h : invokedId op s = some id) :
    ∃ env, op = Op.publish id env ∧ statusAt id s.posts = some "scheduled" ∧
      env ≠ PublishEnv.preFail := by
  cases op with
  | add c t n ok => exact absurd h (by simp [invokedId])
  | del i ok => exact absurd h (by simp [invokedId])
  | delMany1 ids ok => exact absurd h (by simp [invokedId])
  | delMany2 ids ok => exact absurd h (by simp [invokedId])
  | markPosted i ok => exact absurd h (by simp [invokedId])
  | updateCron i e ok => exact absurd h (by simp [invokedId])
  | publish i env =>
    simp only [invokedId] at h
    by_cases hb : (PublishToLinkedIn i env s).2.1 = true
    · rw [if_pos hb] at h
      have hii : i = id := by injection h
      subst hii
      obtain ⟨h1, h2⟩ := (publish_invoked_iff i env s).mp hb
      exact ⟨env, rfl, h1, h2⟩
    · rw [if_neg hb] at h
      cases h

theorem statusAt_mem (id : Int) (ps : List Post) (st : String)
    (h : statusAt id ps = some st) : id ∈ idsOf ps := by
  unfold statusAt at h
  cases hf : findFirst id ps with
  | none => rw [hf] at h; cases h
  | some p =>
    obtain ⟨hpid, hpmem⟩ := findFirst_eq_some id ps p hf
    exact hpid ▸ List.mem_map_of_mem Post.id hpmem

theorem statusAt_after_setStatusFirst (id : Int) (st : String) (ps : List Post) (p : Post)
    (hf : findFirst id ps = some p) :
    statusAt id (setStatusFirst id st ps) = some st := by
  rw [statusAt, findFirst_setStatusFirst_self, hf]
  rfl

theorem invoke_kills (op : Op) (s : Scheduler) (id : Int) (hWF : WF s)
    (h : invokedId op s = some id) :
    statusAt id (applyOp op s).posts ≠ some "scheduled" ∧
      id < (applyOp op s).nextID := by
  obtain ⟨env, rfl, hsch, hpre⟩ := invokedId_eq_some op s id h
  have hid : id < s.nextID := hWF.2 id (statusAt_mem id s.posts "scheduled" hsch)
  have hf : ∃ p, findFirst id s.posts = some p ∧ p.status = "scheduled" := by
    unfold statusAt at hsch
    cases hff : findFirst id s.posts with
    | none => rw [hff] at hsch; cases hsch
    | some p =>
      rw [hff] at hsch
      exact ⟨p, rfl, by injection hsch⟩
  obtain ⟨p, hff, hps⟩ := hf
  cases env with
  | preFail => exact absurd rfl hpre
  | adapterFail ok =>
    obtain ⟨h1, h2⟩ := applyOp_publish_fail id ok s p hff hps
    refine ⟨?_, h2 ▸ hid⟩
    rw [h1, statusAt_after_setStatusFirst id "failed" s.posts p hff]
    simp
  | adapterOk ok =>
    obtain ⟨h1, h2⟩ := applyOp_publish_ok id ok s p hff hps
    refine ⟨?_, h2 ▸ hid⟩
    rw [h1, statusAt_after_setStatusFirst id "posted" s.posts p hff]
    simp

theorem invocationCount_eq_zero (s : Scheduler) (ops : List Op) (id : Int)
    (hWF : WF s) (hid : id < s.nextID) (h : statusAt id s.posts ≠ some "scheduled") :
    invocationCount s ops id = 0 := by
  induction ops generalizing s with
  | nil => rfl
  | cons op rest ih =>
    have hnot : ¬ invokedId op s = some id := by
      intro hinv
      obtain ⟨env, _, hsch, _⟩ := invokedId_eq_some op s id hinv
      exact h hsch
    have hWF' := WF_applyOp op s hWF
    have hid' : id < (applyOp op s).nextID := lt_of_lt_of_le hid (nextID_mono op s)
    have h' := statusAt_not_scheduled_preserved op s id hWF hid h
    simp only [invocationCount, if_neg hnot, zero_add]
    exact ih (applyOp op s) hWF' hid' h'

theorem invocationCount_le_one (s : Scheduler) (ops : List Op) (id : Int) (hWF : WF s) :
    invocationCount s ops id ≤ 1 := by
  induction ops generalizing s with
  | nil => exact Nat.zero_le 1
  | cons op rest ih =>
    by_cases hinv : invokedId op s = some id
    · obtain ⟨hdead, hlt⟩ := invoke_kills op s id hWF hinv
      have hz := invocationCount_eq_zero (applyOp op s) rest id (WF_applyOp op s hWF) hlt hdead
      simp only [invocationCount, if_pos hinv, hz]
      omega
    · have := ih (applyOp op s) (WF_applyOp op s hWF)
      simp only [invocationCount, if_neg hinv, zero_add]
      exact this

/-! ### C1 (amended): at-most-once publishing -/

/-- C1 amended: over any sequence of operations from a well-formed store, the
Publisher Adapter is invoked at most once per item id; and once an item's status
is terminal ("posted" or "failed"), no sequence of operations — timer fire,
explicit publish, publish-due loop, or any store mutation — ever invokes the
adapter for that id again.  (Exactly-once fails: `MarkAsPosted` can move an item
to "posted" with zero invocations.) -/
theorem publisherInvokedAtMostOnce (s : Scheduler) (ops : List Op) (id : Int)
    (hWF : WF s) :
    invocationCount s ops id ≤ 1 ∧
      (∀ p, findFirst id s.posts = some p → (p.status = "posted" ∨ p.status = "failed") →
        invocationCount s ops id = 0) := by
  refine ⟨invocationCount_le_one s ops id hWF, ?_⟩
  intro p hf hterm
  have hmem : id ∈ idsOf s.posts :=
    statusAt_mem id s.posts p.status (by rw [statusAt, hf]; rfl)
  have hid : id < s.nextID := hWF.2 id hmem
  have hns : statusAt id s.posts ≠ some "scheduled" := by
    rw [statusAt, hf]
    rcases hterm with h | h <;> simp [h]
  exact invocationCount_eq_zero s ops id hWF hid hns

/-- Witness for `publisherInvokedAtMostOnce`: from a store holding one already
published post, a later explicit publish attempt performs no adapter invocation. -/
theorem publisherInvokedAtMostOnce_w :
    invocationCount (Scheduler.mk [Post.mk 1 "x" 5 "posted" 0 0] 2 [])
        [Op.publish 1 (PublishEnv.adapterOk true)] 1 = 0 :=
  (publisherInvokedAtMostOnce (Scheduler.mk [Post.mk 1 "x" 5 "posted" 0 0] 2 [])
      [Op.publish 1 (PublishEnv.adapterOk true)] 1 (by decide)).2
    (Post.mk 1 "x" 5 "posted" 0 0) (by decide) (Or.inl rfl)

/-! ### C6 (amended): id assignment within one store lifetime -/

theorem assignedIDs_ge (s : Scheduler) (ops : List Op) :
    ∀ i ∈ assignedIDs s ops, s.nextID ≤ i := by
  induction ops generalizing s with
  | nil => intro i hi; cases hi
  | cons op rest ih =>
    intro i hi
    cases op with
    | add c t n ok =>
      simp only [assignedIDs] at hi
      rcases List.mem_cons.mp hi with rfl | hi
      · exact le_refl _
      · have := ih (applyOp (Op.add c t n ok) s) i hi
        rw [applyOp_nextID_add] at this
        omega
    | del j ok =>
      simp only [assignedIDs] at hi
      exact le_trans (nextID_mono _ s) (ih _ i hi)
    | delMany1 ids ok =>
      simp only [assignedIDs] at hi
      exact le_trans (nextID_mono _ s) (ih _ i hi)
    | delMany2 ids ok =>
      simp only [assignedIDs] at hi
      exact le_trans (nextID_mono _ s) (ih _ i hi)
    | markPosted j ok =>
      simp only [assignedIDs] at hi
      exact le_trans (nextID_mono _ s) (ih _ i hi)
    | updateCron j e ok =>
      simp only [assignedIDs] at hi
      exact le_trans (nextID_mono _ s) (ih _ i hi)
    | publish j env =>
      simp only [assignedIDs] at hi
      exact le_trans (nextID_mono _ s) (ih _ i hi)

theorem assignedIDs_pairwise (s : Scheduler) (ops : List Op) :
    (assignedIDs s ops).Pairwise (· < ·) := by
  induction ops generalizing s with
  | nil => exact List.Pairwise.nil
  | cons op rest ih =>
    cases op with
    | add c t n ok =>
      simp only [assignedIDs]
      refine List.Pairwise.cons ?_ (ih _)
      intro j hj
      have := assignedIDs_ge (applyOp (Op.add c t n ok) s) rest j hj
      rw [applyOp_nextID_add] at this
      omega
    | del j ok => simp only [assignedIDs]; exact ih _
    | delMany1 ids ok => simp only [assignedIDs]; exact ih _
    | delMany2 ids ok => simp only [assignedIDs]; exact ih _
    | markPosted j ok => simp only [assignedIDs]; exact ih _
    | updateCron j e ok => simp only [assignedIDs]; exact ih _
    | publish j env => simp only [assignedIDs]; exact ih _

/-- C6 amended: within one store lifetime (no reload from persistence), the ids
`AddPost` assigns are positive and strictly increasing in order of assignment —
so no id is ever assigned twice, even after deletions.  Across a reload the
property fails, because `loadPosts` recomputes `nextID` from the surviving posts
(see the counterexample): an id above every persisted id can be reassigned. -/
theorem assignedIDs_positive_increasing (s : Scheduler) (ops : List Op)
    (h : 1 ≤ s.nextID) :
    (∀ i ∈ assignedIDs s ops, 0 < i) ∧ (assignedIDs s ops).Pairwise (· < ·) :=
  ⟨fun i hi => lt_of_lt_of_le Int.zero_lt_one (le_trans h (assignedIDs_ge s ops i hi)),
    assignedIDs_pairwise s ops⟩

/-- Witness for `assignedIDs_positive_increasing`: two adds interleaved with a
delete assign the positive, strictly increasing ids 1 and 2. -/
theorem assignedIDs_positive_increasing_w :
    (∀ i ∈ assignedIDs (Scheduler.mk [] 1 [])
        [Op.add "a" 5 0 true, Op.del 1 true, Op.add "b" 6 0 true], 0 < i) ∧
      (assignedIDs (Scheduler.mk [] 1 [])
        [Op.add "a" 5 0 true, Op.del 1 true, Op.add "b" 6 0 true]).Pairwise (· < ·) :=
  assignedIDs_positive_increasing (Scheduler.mk [] 1 [])
    [Op.add "a" 5 0 true, Op.del 1 true, Op.add "b" 6 0 true] (by decide)

/-! ### Characterization of the two DeleteMultiplePosts variants -/

theorem dmp1_spec (ids : List Int) (saveOk : Bool) (s : Scheduler) :
    (DeleteMultiplePosts1 ids saveOk s).1.posts =
        s.posts.filter (fun p => !(idInList p.id ids)) ∧
      (saveOk = true → (DeleteMultiplePosts1 ids saveOk s).1.disk =
        (DeleteMultiplePosts1 ids saveOk s).1.posts) ∧
      ((DeleteMultiplePosts1 ids saveOk s).2 = none ↔
        saveOk = true ∧
          ((dedupIDs ids).filter
            (fun i => !(s.posts.any (fun p => p.id == i)))).isEmpty = true) := by
  cases saveOk with
  | false =>
    refine ⟨?_, ?_, ?_⟩
    · simp [DeleteMultiplePosts1, savePosts]
    · intro h; cases h
    · simp [DeleteMultiplePosts1, savePosts]
  | true =>
    by_cases hne : ((dedupIDs ids).filter
        (fun i => !(s.posts.any (fun p => p.id == i)))).isEmpty = true
    · refine ⟨?_, ?_, ?_⟩ <;> simp [DeleteMultiplePosts1, savePosts, hne]
    · refine ⟨?_, ?_, ?_⟩ <;> simp [DeleteMultiplePosts1, savePosts, hne]

theorem dmp2_nil (saveOk : Bool) (s : Scheduler) :
    DeleteMultiplePosts2 [] saveOk s = (s, ⟨0, []⟩, some GoErr.noIDs) := rfl

theorem dmp2_spec (ids : List Int) (saveOk : Bool) (s : Scheduler) (h : ids ≠ []) :
    (DeleteMultiplePosts2 ids saveOk s).1.posts =
        s.posts.filter (fun p => !(idInList p.id ids)) ∧
      (DeleteMultiplePosts2 ids saveOk s).2.1.deletedCount =
        (s.posts.filter (fun p => idInList p.id ids)).length ∧
      (DeleteMultiplePosts2 ids saveOk s).2.1.notFoundIDs =
        ids.filter (fun i => !(s.posts.any (fun p => p.id == i))) ∧
      (saveOk = true → (DeleteMultiplePosts2 ids saveOk s).1.disk =
        (DeleteMultiplePosts2 ids saveOk s).1.posts) ∧
      ((DeleteMultiplePosts2 ids saveOk s).2.2 = none ↔
        saveOk = true ∧ (s.posts.filter (fun p => idInList p.id ids)).length ≠ 0) := by
  have hne : ids.isEmpty = false := by
    cases ids with
    | nil => exact absurd rfl h
    | cons x xs => rfl
  cases saveOk with
  | false =>
    refine ⟨?_, ?_, ?_, ?_, ?_⟩
    · simp [DeleteMultiplePosts2, savePosts, hne]
    · simp [DeleteMultiplePosts2, savePosts, hne]
    · simp [DeleteMultiplePosts2, savePosts, hne]
    · intro hh; cases hh
    · simp [DeleteMultiplePosts2, savePosts, hne]
  | true =>
    by_cases hz : (s.posts.filter (fun p => idInList p.id ids)).length = 0
    · refine ⟨?_, ?_, ?_, ?_, ?_⟩ <;> simp [DeleteMultiplePosts2, savePosts, hne, hz]
    · refine ⟨?_, ?_, ?_, ?_, ?_⟩ <;> simp [DeleteMultiplePosts2, savePosts, hne, hz]

/-! ### C5 (amended): bulk delete reporting -/

/-- C5 amended: for every nonempty id list matching at least one post, the second
`DeleteMultiplePosts` variant removes all matching items, persists, returns
success — absent ids never cause its error — and reports the deleted count and
the absent ids as data (it prints them); the first variant removes and persists
the same items without rolling anything back, but reports absent ids through a
returned error rather than as data. -/
theorem deleteMany_reports_absent_as_data (s : Scheduler) (ids : List Int)
    (h : ids ≠ []) (hdel : (s.posts.filter (fun p => idInList p.id ids)).length ≠ 0) :
    (DeleteMultiplePosts2 ids true s).2.2 = none ∧
      (DeleteMultiplePosts2 ids true s).1.posts =
        s.posts.filter (fun p => !(idInList p.id ids)) ∧
      (DeleteMultiplePosts2 ids true s).1.disk = (DeleteMultiplePosts2 ids true s).1.posts ∧
      (DeleteMultiplePosts2 ids true s).2.1.deletedCount =
        (s.posts.filter (fun p => idInList p.id ids)).length ∧
      (DeleteMultiplePosts2 ids true s).2.1.notFoundIDs =
        ids.filter (fun i => !(s.posts.any (fun p => p.id == i))) ∧
      (DeleteMultiplePosts1 ids true s).1.posts =
        s.posts.filter (fun p => !(idInList p.id ids)) ∧
      (DeleteMultiplePosts1 ids true s).1.disk = (DeleteMultiplePosts1 ids true s).1.posts := by
  obtain ⟨p1, p2, p3, p4, p5⟩ := dmp2_spec ids true s h
  obtain ⟨q1, q2, q3⟩ := dmp1_spec ids true s
  exact ⟨p5.mpr ⟨rfl, hdel⟩, p1, p4 rfl, p2, p3, q1, q2 rfl⟩

/-- Witness for `deleteMany_reports_absent_as_data`: Scenario E — deleting
`[1, 2, 999]` with posts 1 and 2 present succeeds with `deletedCount = 2` and
`notFoundIDs = [999]`. -/
theorem deleteMany_reports_absent_as_data_w :
    (DeleteMultiplePosts2 [1, 2, 999] true
        (Scheduler.mk [Post.mk 1 "a" 10 "scheduled" 0 0, Post.mk 2 "b" 20 "scheduled" 0 0] 3
          [Post.mk 1 "a" 10 "scheduled" 0 0, Post.mk 2 "b" 20 "scheduled" 0 0])).2.2 = none ∧
      (DeleteMultiplePosts2 [1, 2, 999] true
        (Scheduler.mk [Post.mk 1 "a" 10 "scheduled" 0 0, Post.mk 2 "b" 20 "scheduled" 0 0] 3
          [Post.mk 1 "a" 10 "scheduled" 0 0,
            Post.mk 2 "b" 20 "scheduled" 0 0])).2.1.deletedCount = 2 ∧
      (DeleteMultiplePosts2 [1, 2, 999] true
        (Scheduler.mk [Post.mk 1 "a" 10 "scheduled" 0 0, Post.mk 2 "b" 20 "scheduled" 0 0] 3
          [Post.mk 1 "a" 10 "scheduled" 0 0,
            Post.mk 2 "b" 20 "scheduled" 0 0])).2.1.notFoundIDs = [999] := by
  have h := deleteMany_reports_absent_as_data
    (Scheduler.mk [Post.mk 1 "a" 10 "scheduled" 0 0, Post.mk 2 "b" 20 "scheduled" 0 0] 3
      [Post.mk 1 "a" 10 "scheduled" 0 0, Post.mk 2 "b" 20 "scheduled" 0 0])
    [1, 2, 999] (by decide) (by decide)
  exact ⟨h.1, h.2.2.2.1.trans (by decide), h.2.2.2.2.1.trans (by decide)⟩

/-! ### C10 (amended): the two variants agree on state, not on outcome -/

/-- C10 amended: for every starting collection and id list the two
`DeleteMultiplePosts` variants leave the same in-memory post collection (the
original minus the posts whose id appears in the list), but they do not succeed
together: the first succeeds exactly when the save succeeds and every distinct
requested id matched a post, while the second succeeds exactly when the list is
nonempty, the save succeeds, and at least one post was deleted (in particular
they disagree on the empty list and on lists mixing present and absent ids). -/
theorem deleteManyVariants_same_state_different_outcome (s : Scheduler) (ids : List Int)
    (saveOk : Bool) :
    (DeleteMultiplePosts1 ids saveOk s).1.posts = (DeleteMultiplePosts2 ids saveOk s).1.posts ∧
      ((DeleteMultiplePosts1 ids saveOk s).2 = none ↔
        saveOk = true ∧
          ((dedupIDs ids).filter
            (fun i => !(s.posts.any (fun p => p.id == i)))).isEmpty = true) ∧
      ((DeleteMultiplePosts2 ids saveOk s).2.2 = none ↔
        ids ≠ [] ∧ saveOk = true ∧
          (s.posts.filter (fun p => idInList p.id ids)).length ≠ 0) := by
  refine ⟨?_, (dmp1_spec ids saveOk s).2.2, ?_⟩
  · cases ids with
    | nil =>
      rw [dmp2_nil, (dmp1_spec [] saveOk s).1]
      exact List.filter_eq_self.mpr (fun p _ => rfl)
    | cons x xs =>
      rw [(dmp1_spec (x :: xs) saveOk s).1, (dmp2_spec (x :: xs) saveOk s (by simp)).1]
  · cases ids with
    | nil => rw [dmp2_nil]; simp
    | cons x xs =>
      rw [(dmp2_spec (x :: xs) saveOk s (by simp)).2.2.2.2]
      simp

/-- Witness for `deleteManyVariants_same_state_different_outcome`: both variants
leave a concrete store's collection unchanged when the single requested id is
absent. -/
theorem deleteManyVariants_same_state_different_outcome_w :
    (DeleteMultiplePosts1 [5] true (Scheduler.mk [] 1 [])).1.posts =
      (DeleteMultiplePosts2 [5] true (Scheduler.mk [] 1 [])).1.posts :=
  (deleteManyVariants_same_state_different_outcome (Scheduler.mk [] 1 []) [5] true).1

/-! ### C9 (confirmed): write-through persistence -/

/-- C9: every mutating store operation that returns success has, before returning,
persisted the whole in-memory collection — on every successful return the on-disk
state equals the in-memory state.  This covers `AddPost`, `DeletePost`, both
`DeleteMultiplePosts` variants, `MarkAsPosted`, `UpdatePostCronEntry`, and the
status updates inside `PublishToLinkedIn`. -/
theorem mutations_write_through (content : String) (schedAt now : Int) (saveOk : Bool)
    (s : Scheduler) (id entry : Int) (ids : List Int) (env : PublishEnv) :
    ((AddPost content schedAt now saveOk s).2 = none →
        (AddPost content schedAt now saveOk s).1.disk =
          (AddPost content schedAt now saveOk s).1.posts) ∧
      ((DeletePost id saveOk s).2 = none →
        (DeletePost id saveOk s).1.disk = (DeletePost id saveOk s).1.posts) ∧
      ((MarkAsPosted id saveOk s).2 = none →
        (MarkAsPosted id saveOk s).1.disk = (MarkAsPosted id saveOk s).1.posts) ∧
      ((UpdatePostCronEntry id entry saveOk s).2 = none →
        (UpdatePostCronEntry id entry saveOk s).1.disk =
          (UpdatePostCronEntry id entry saveOk s).1.posts) ∧
      ((DeleteMultiplePosts1 ids saveOk s).2 = none →
        (DeleteMultiplePosts1 ids saveOk s).1.disk =
          (DeleteMultiplePosts1 ids saveOk s).1.posts) ∧
      ((DeleteMultiplePosts2 ids saveOk s).2.2 = none →
        (DeleteMultiplePosts2 ids saveOk s).1.disk =
          (DeleteMultiplePosts2 ids saveOk s).1.posts) ∧
      ((PublishToLinkedIn id env s).2.2 = none →
        (PublishToLinkedIn id env s).1.disk = (PublishToLinkedIn id env s).1.posts) := by
  refine ⟨?_, ?_, ?_, ?_, ?_, ?_, ?_⟩
  · cases saveOk <;> simp [AddPost, savePosts]
  · cases hr : removeFirst id s.posts with
    | none => simp [DeletePost, hr]
    | some qs => cases saveOk <;> simp [DeletePost, hr, savePosts]
  · cases hf : findFirst id s.posts with
    | none => simp [MarkAsPosted, hf]
    | some p => cases saveOk <;> simp [MarkAsPosted, hf, savePosts]
  · cases hf : findFirst id s.posts with
    | none => simp [UpdatePostCronEntry, hf]
    | some p => cases saveOk <;> simp [UpdatePostCronEntry, hf, savePosts]
  · intro h
    exact (dmp1_spec ids saveOk s).2.1 ((dmp1_spec ids saveOk s).2.2.mp h).1
  · cases ids with
    | nil => rw [dmp2_nil]; intro h; cases h
    | cons x xs =>
      intro h
      exact (dmp2_spec (x :: xs) saveOk s (by simp)).2.2.2.1
        ((dmp2_spec (x :: xs) saveOk s (by simp)).2.2.2.2.mp h).1
  · cases hf : findFirst id s.posts with
    | none => simp [PublishToLinkedIn, hf]
    | some p =>
      by_cases hs : p.status = "scheduled"
      · cases env with
        | preFail => simp [PublishToLinkedIn, hf, hs]
        | adapterFail ok => cases ok <;> simp [PublishToLinkedIn, hf, hs, savePosts]
        | adapterOk ok => cases ok <;> simp [PublishToLinkedIn, hf, hs, savePosts]
      · simp [PublishToLinkedIn, hf, hs]

/-- Witness for `mutations_write_through`: a successful `AddPost` leaves the disk
equal to the in-memory collection. -/
theorem mutations_write_through_w :
    (AddPost "x" 5 0 true (Scheduler.mk [] 1 [])).1.disk =
      (AddPost "x" 5 0 true (Scheduler.mk [] 1 [])).1.posts :=
  (mutations_write_through "x" 5 0 true (Scheduler.mk [] 1 []) 0 0 [] PublishEnv.preFail).1
    (by decide)

end PostedIn
